import Mathlib

/-!
Shallow embedding of the `djeno` template engine (`src/lib/djeno.ts`) in Lean 4,
together with theorems settling the frozen claims about its specification.

The repository's `djeno.ts` is a Django/Jinja-style template engine for Deno:
a lexer splits template text into text / variable / tag / comment tokens with
line-column positions, a stack-machine parser builds a document tree, and a
renderer walks the tree against a context, evaluating a small expression
sublanguage (path chains, literals, comparisons, filter pipelines).

Embedding conventions:
- JavaScript runtime values are modelled by the inductive `Value`
  (string / number / boolean / null-or-undefined / array / plain object /
  SafeString wrapper / zero-argument callable).  JavaScript `null` and
  `undefined` are merged into `Value.vnull`: the engine only ever tests
  `v == null`, which is true of both, and never applies `String` to either.
- Numbers are embedded as integers (`Int`).  The source's numeric-literal
  regex also accepts a fractional part (`-?\d+(\.\d+)?`); fractional literals
  are outside the fragment any claim exercises, so the embedded recognizer
  accepts only the integer form.
- A callable is `Value.callable (res : Option Value)`: invoking it either
  throws (`none`, which the engine catches and degrades to undefined) or
  returns the given value (`some v`).  The receiver (`.call(context)`) is
  irrelevant to the model.
- File I/O is a pure map `FS` from template path to source text; a missing
  path models `Deno.readTextFileSync` throwing.
- Recursion through `loader.load` (includes / extends chains) is not
  structurally bounded in the source (a cyclic `extends` diverges), so the
  renderer and the expression evaluator carry an explicit fuel parameter.
  Expressions are treated as single-line: the source's comparison regex uses
  `.`, which does not match a newline, and no claim involves a newline
  inside a `{{ ... }}` or `{% ... %}` body.
-/

/-- JavaScript runtime values as consumed and produced by the engine. -/
inductive Value where
  | str (s : String)
  | num (n : Int)
  | bool (b : Bool)
  | vnull
  | seq (l : List Value)
  | obj (entries : List (String × Value))
  | safeStr (s : String)
  | callable (res : Option Value)
deriving Repr

/-- A rendering context: a JavaScript object, i.e. an insertion-ordered
association list with unique keys. -/
abbrev Ctx := List (String × Value)

/-- `v == null` in JavaScript (true exactly of null and undefined). -/
def isVNull : Value → Bool
  | .vnull => true
  | _ => false

/-- `typeof v === "object" || typeof v === "function"`: arrays, plain
objects and `SafeString` instances have typeof `"object"`, callables have
typeof `"function"`. -/
def isObjLike : Value → Bool
  | .seq _ => true
  | .obj _ => true
  | .safeStr _ => true
  | .callable _ => true
  | _ => false

/-- List-of-chars prefix test (pattern first). -/
def startsWithL : List Char → List Char → Bool
  | [], _ => true
  | _ :: _, [] => false
  | p :: ps, c :: cs => p == c && startsWithL ps cs

/-- JavaScript `String.prototype.trim` on the whitespace the engine meets
(space, tab, carriage return, newline). -/
def jsTrim (s : String) : String :=
  (((s.data.dropWhile Char.isWhitespace).reverse.dropWhile Char.isWhitespace).reverse).asString

/-- Replace every occurrence of character `c` by the string `r`: one global
single-character `String.prototype.replace` pass. -/
def replaceChar (cs : List Char) (c : Char) (r : List Char) : List Char :=
  cs.foldr (fun x acc => if x == c then r ++ acc else x :: acc) []

/-- `escapeHtml` (src/lib/djeno.ts:567): five sequential global replacements,
ampersand first so later-introduced entities are not re-escaped. -/
def escapeHtml (s : String) : String :=
  let p1 := replaceChar s.data '&' ("&amp;".data)
  let p2 := replaceChar p1 '<' ("&lt;".data)
  let p3 := replaceChar p2 '>' ("&gt;".data)
  let p4 := replaceChar p3 '"' ("&quot;".data)
  let p5 := replaceChar p4 '\'' ("&#39;".data)
  p5.asString

/-- Case-insensitive occurrence of `</script` at the head of the char list. -/
def scriptPatAt (cs : List Char) : Bool :=
  ((cs.take 8).map Char.toLower) == ("</script".data)

/-- Replace every case-insensitive `</script` by `<\/script` (the shared
defusing used by `escapeClosingScript` and the `escapejs` filter).  Fuel is
the remaining length; every step consumes at least one character. -/
def replScript : Nat → List Char → List Char
  | 0, cs => cs
  | _ + 1, [] => []
  | fl + 1, c :: rest =>
    if scriptPatAt (c :: rest) then
      ("<\\/script".data) ++ replScript fl ((c :: rest).drop 8)
    else
      c :: replScript fl rest

/-- `escapeClosingScript` (src/lib/djeno.ts:576). -/
def escapeClosingScript (s : String) : String :=
  (replScript (s.length + 1) s.data).asString

/-- `splitUnquoted` (src/lib/djeno.ts:673): split on an unquoted separator,
tracking single-quote, double-quote and backslash-escape state; each part is
trimmed. -/
def splitUnquotedAux (sep : Char) :
    List Char → Bool → Bool → Bool → List Char → List String
  | [], _, _, _, buf => [jsTrim buf.reverse.asString]
  | c :: rest, inS, inD, esc, buf =>
    if esc then splitUnquotedAux sep rest inS inD false (c :: buf)
    else if c == '\\' then splitUnquotedAux sep rest inS inD true (c :: buf)
    else if c == '\'' && !inD then splitUnquotedAux sep rest (!inS) inD false (c :: buf)
    else if c == '"' && !inS then splitUnquotedAux sep rest inS (!inD) false (c :: buf)
    else if !inS && !inD && c == sep then
      jsTrim buf.reverse.asString :: splitUnquotedAux sep rest inS inD false []
    else splitUnquotedAux sep rest inS inD false (c :: buf)

/-- `splitUnquoted` on a single-character separator (the source only ever
passes `" "` and `"|"`). -/
def splitUnquoted (input : String) (sep : Char) : List String :=
  splitUnquotedAux sep input.data false false false []

/-- Join with commas (`Array.prototype.join` / the comma insertion of
`JSON.stringify`). -/
def joinComma : List String → String
  | [] => ""
  | [p] => p
  | p :: rest => p ++ "," ++ joinComma rest

mutual

/-- JavaScript `String(v)` for the values the engine stringifies (never
applied to null/undefined by the engine, but `String(null) = "null"` is
modelled faithfully anyway; array elements that are null/undefined join as
the empty string).  A callable stringifies in JavaScript to its source text,
which the model replaces by a fixed placeholder (no claim stringifies a
function). -/
def valueToString : Value → String
  | .str s => s
  | .num n => toString n
  | .bool b => cond b ("true") ("false")
  | .vnull => "null"
  | .seq l => joinComma (seqParts l)
  | .obj _ => "[object Object]"
  | .safeStr s => s
  | .callable _ => "function"

def seqParts : List Value → List String
  | [] => []
  | .vnull :: rest => "" :: seqParts rest
  | v :: rest => valueToString v :: seqParts rest

end

/-- JavaScript truthiness `!!v`: null/undefined, the empty string, zero and
`false` are falsy; everything else — including empty arrays and empty
objects — is truthy. -/
def truthy : Value → Bool
  | .vnull => false
  | .str s => !s.isEmpty
  | .num n => !(n == 0)
  | .bool b => b
  | _ => true

/-- Integer-form numeric literal (see the header note: the source regex
`^-?\d+(\.\d+)?$` also accepts a fractional part, unexercised here). -/
def isNumLit (s : String) : Bool :=
  match s.data with
  | '-' :: ds => !ds.isEmpty && ds.all Char.isDigit
  | ds => !ds.isEmpty && ds.all Char.isDigit

/-- Value of an integer literal accepted by `isNumLit`. -/
def parseIntLit (s : String) : Int :=
  match s.data with
  | '-' :: ds => -(Int.ofNat (ds.foldl (fun a c => a * 10 + (c.toNat - 48)) 0))
  | ds => Int.ofNat (ds.foldl (fun a c => a * 10 + (c.toNat - 48)) 0)

/-- The quoted-string literal test `^"(.*)"$|^'(.*)'$` (with dot-all): the
whole expression is wrapped in a matching pair of double or single quotes;
the raw middle is the value. -/
def quoteLit (s : String) : Option String :=
  let cs := s.data
  if cs.length ≥ 2 && cs.head? == some '"' && cs.getLast? == some '"' then
    some ((cs.drop 1).dropLast.asString)
  else if cs.length ≥ 2 && cs.head? == some '\'' && cs.getLast? == some '\'' then
    some ((cs.drop 1).dropLast.asString)
  else none

def isIdentStart (c : Char) : Bool :=
  c.isAlpha || c == '_' || c == '$'

def isIdentChar (c : Char) : Bool :=
  isIdentStart c || c.isDigit

/-- Leading identifier `[A-Za-z_$][A-Za-z0-9_$]*`, returning it and the
remaining characters. -/
def leadIdent : List Char → Option (String × List Char)
  | [] => none
  | c :: rest =>
    if isIdentStart c then
      some ((c :: rest.takeWhile isIdentChar).asString, rest.dropWhile isIdentChar)
    else none

/-- One step of a path chain (src/lib/djeno.ts `ChainStep`, the initial
`name` step is held separately). -/
inductive Step where
  | prop (name : String)
  | index (expr : String)
  | call
deriving Repr

/-- Bracket scan for `[ ... ]` with nesting depth, as in the source's
`while (j < expr.length && depth > 0)` loop: returns the inner text and the
characters after the matching `]`, or `none` when depth never returns to 0. -/
def scanBracket : List Char → Nat → List Char → Option (List Char × List Char)
  | [], _, _ => none
  | c :: rest, d, acc =>
    let d' := if c == '[' then d + 1 else if c == ']' then d - 1 else d
    if d' == 0 then some (acc.reverse, rest)
    else scanBracket rest d' (c :: acc)

/-- Parse the chain steps following the initial identifier.  `none` models
the source's `return undefined` on a malformed step (`.` without an
identifier, unbalanced `[`); an unrecognized character simply ends the chain
(the source's `break`). Fuel is the character count; every recursive call
consumes at least one character. -/
def parseSteps : Nat → List Char → Option (List Step)
  | _, [] => some []
  | 0, _ :: _ => some []
  | fl + 1, c :: rest =>
    if c == '.' then
      match leadIdent rest with
      | none => none
      | some (nm, r) => (parseSteps fl r).map (Step.prop nm :: ·)
    else if c == '[' then
      match scanBracket rest 1 [] with
      | none => none
      | some (inner, after) =>
        (parseSteps fl after).map (Step.index (jsTrim inner.asString) :: ·)
    else if startsWithL ("()".data) (c :: rest) then
      (parseSteps fl rest.tail).map (Step.call :: ·)
    else some []

/-- Context lookup `context[name]`: a missing key is undefined. -/
def ctxLookup (ctx : Ctx) (k : String) : Value :=
  match ctx.find? (fun p => p.1 == k) with
  | some p => p.2
  | none => .vnull

/-- Property read `cur[key]` on an object-like value:
- plain object: own property, or undefined;
- array: `"length"`, or a canonical decimal index into the elements
  (JavaScript `arr["01"]` is not an element access), or undefined;
- `SafeString`: its single own enumerable field `value` (TypeScript
  `private` is erased at runtime), or undefined;
- callable: modelled as undefined (function properties are unexercised). -/
def canonicalIndex (s : String) : Option Nat :=
  let cs := s.data
  if !cs.isEmpty && cs.all Char.isDigit && (s == "0" || cs.head? != some '0') then
    some (cs.foldl (fun a c => a * 10 + (c.toNat - 48)) 0)
  else none

def getProp : Value → String → Value
  | .obj es, n =>
    match es.find? (fun p => p.1 == n) with
    | some p => p.2
    | none => .vnull
  | .seq l, n =>
    if n == "length" then .num (Int.ofNat l.length)
    else
      match canonicalIndex n with
      | some i => (l.get? i).getD .vnull
      | none => .vnull
  | .safeStr s, n => if n == "value" then .str s else .vnull
  | _, _ => .vnull

/-- The key a bracket index denotes: the source accepts string or number
index values and coerces them through `String(idx)`; any other index kind
makes the whole chain undefined. -/
def idxKey : Value → Option String
  | .str s => some s
  | .num n => some (toString n)
  | _ => none

/-- The chain walk of `getValueFromExpr`, abstracted over the evaluator
`ev` used for bracketed index sub-expressions: short-circuits to undefined
the moment the current value is null/undefined; a property or index step on
a non-object is undefined; an index sub-expression is recursively evaluated
and must come out a string or a number; invoking a non-callable, or a
callable that throws, degrades to undefined and the loop continues. -/
def walkChainH (ev : String → Ctx → Value) (ctx : Ctx) : Value → List Step → Value
  | cur, [] => cur
  | cur, s :: rest =>
    if isVNull cur then .vnull
    else
      match s with
      | .prop n =>
        if isObjLike cur then walkChainH ev ctx (getProp cur n) rest else .vnull
      | .index e =>
        match idxKey (ev e ctx) with
        | some k =>
          if isObjLike cur then walkChainH ev ctx (getProp cur k) rest else .vnull
        | none => .vnull
      | .call =>
        match cur with
        | .callable res => walkChainH ev ctx (res.getD .vnull) rest
        | _ => walkChainH ev ctx .vnull rest

/-- `getValueFromExpr` (src/lib/djeno.ts:932): trim; keyword literals
(`true`/`false`/`null`/`undefined`); numeric literal; quoted string literal;
otherwise a path chain rooted at a context name.  Any malformed shape is
undefined, never an error.  The fuel bounds the recursion into bracketed
index sub-expressions (each strictly shorter than its enclosing
expression). -/
def getValueFromExpr : Nat → String → Ctx → Value
  | 0, _, _ => .vnull
  | f + 1, expr, ctx =>
    let e := jsTrim expr
    if e == "true" then .bool true
    else if e == "false" then .bool false
    else if e == "null" || e == "undefined" then .vnull
    else if isNumLit e then .num (parseIntLit e)
    else
      match quoteLit e with
      | some s => .str s
      | none =>
        match leadIdent e.data with
        | none => .vnull
        | some (nm, rest) =>
          match parseSteps (rest.length + 1) rest with
          | none => .vnull
          | some steps =>
            walkChainH (fun e2 c2 => getValueFromExpr f e2 c2) ctx (ctxLookup ctx nm) steps

/-- The chain walk at a given index-evaluation fuel (the shape of the
source's `walkChain` loop). -/
def walkChain (fuel : Nat) (ctx : Ctx) (cur : Value) (steps : List Step) : Value :=
  walkChainH (fun e c => getValueFromExpr fuel e c) ctx cur steps

/-- Top-level expression evaluation.  A bracketed index sub-expression is a
strict substring of its enclosing expression, so a fuel of one more than the
character count never runs out; every call site in the engine evaluates a
complete expression string and uses this wrapper. -/
def getValue (expr : String) (ctx : Ctx) : Value :=
  getValueFromExpr (expr.length + 1) expr ctx

/-- The comparison operators of `^(.*?)\s*(==|!=|>=|<=|>|<)\s*(.*?)$`, in the
regex's alternation order (two-character operators first). -/
def cmpOps : List String := ["==", "!=", ">=", "<=", ">", "<"]

/-- The operator matching at the head of the characters, by alternation
order. -/
def opAt (cs : List Char) : Option String :=
  cmpOps.find? (fun op => startsWithL op.data cs)

/-- The comparison-split regex of `evalTestExpression`
(src/lib/djeno.ts:922).  The lazy left group makes the engine split at the
leftmost operator occurrence anywhere in the expression — quoted string
literals are NOT respected.  Backtracking semantics worked out: the match
lands on the first position where an operator (in alternation order)
literally occurs; the left operand is the text before it with the adjacent
whitespace run stripped; the right operand is the rest with its leading
whitespace stripped.  `seen` holds the characters already passed, reversed. -/
def splitCmpAux : List Char → List Char → Option (String × String × String)
  | [], _ => none
  | c :: rest, seen =>
    match opAt (c :: rest) with
    | some op =>
      some ((seen.dropWhile Char.isWhitespace).reverse.asString, op,
        (((c :: rest).drop op.length).dropWhile Char.isWhitespace).asString)
    | none => splitCmpAux rest (c :: seen)

def splitCmp (s : String) : Option (String × String × String) :=
  splitCmpAux s.data []

/-- Numeric comparison when both operands are numbers; `none` when the
operator string is none of the six (the source's `switch` then falls through
to the string comparison). -/
def numCmp (a b : Int) (op : String) : Option Bool :=
  if op == "==" then some (a == b)
  else if op == "!=" then some (!(a == b))
  else if op == ">" then some (decide (a > b))
  else if op == "<" then some (decide (a < b))
  else if op == ">=" then some (decide (a ≥ b))
  else if op == "<=" then some (decide (a ≤ b))
  else none

/-- Coercion to string for the string-comparison branch: null/undefined
become the empty string, everything else goes through `String(v)`. -/
def cmpCoerce : Value → String
  | .vnull => ""
  | v => valueToString v

/-- Lexicographic (code-point-wise) strict order on character lists —
JavaScript string relational comparison (code-unit order, which agrees with
code-point order on the exercised fragment).  `charListLt_iff` below proves
it equal to the Lean `List Char` order. -/
def charListLt : List Char → List Char → Bool
  | [], [] => false
  | [], _ :: _ => true
  | _ :: _, [] => false
  | a :: as, b :: bs =>
    if a < b then true
    else if b < a then false
    else charListLt as bs

/-- JavaScript `l < r` on strings. -/
def jsStrLt (l r : String) : Bool :=
  charListLt l.data r.data

/-- String comparison branch of `safeCompare`: JavaScript relational
operators on strings are lexicographic. -/
def strCmp (l r : String) (op : String) : Bool :=
  if op == "==" then l == r
  else if op == "!=" then !(l == r)
  else if op == ">" then jsStrLt r l
  else if op == "<" then jsStrLt l r
  else if op == ">=" then !(jsStrLt l r)
  else if op == "<=" then !(jsStrLt r l)
  else false

/-- `safeCompare` (src/lib/djeno.ts:883): numeric comparison when both sides
are numbers, otherwise lexicographic comparison of the coerced string forms. -/
def safeCompare (l r : Value) (op : String) : Bool :=
  let numBranch : Option Bool :=
    match l, r with
    | .num a, .num b => numCmp a b op
    | _, _ => none
  match numBranch with
  | some b => b
  | none => strCmp (cmpCoerce l) (cmpCoerce r) op

/-- `evalTestExpression` (src/lib/djeno.ts:919): empty test is false; when
the comparison regex matches, both operand substrings are evaluated as
expressions and compared; otherwise the value's truthiness decides. -/
def evalTestExpression (expr : String) (ctx : Ctx) : Bool :=
  let e := jsTrim expr
  if e == "" then false
  else
    match splitCmp e with
    | some (l, op, r) => safeCompare (getValue l ctx) (getValue r ctx) op
    | none => truthy (getValue e ctx)

/-- JSON string quoting for `JSON.stringify` of a string: escapes backslash,
double quote, and the common control characters; other control characters do
not occur in any exercised input. -/
def jsonQuoteChar (c : Char) : List Char :=
  if c == '\\' then ("\\\\".data)
  else if c == '"' then ("\\" ++ "\"").data
  else if c == '\n' then ("\\n".data)
  else if c == '\t' then ("\\t".data)
  else if c == '\r' then ("\\r".data)
  else [c]

def jsonQuote (s : String) : String :=
  ("\"" ++ (s.data.foldr (fun c acc => jsonQuoteChar c ++ acc) []).asString ++ "\"")

mutual

/-- `JSON.stringify` on the modelled values.  `none` models a top-level
result of JavaScript `undefined` (stringifying a function), which makes the
engine's `escapeClosingScript(JSON.stringify(v))` throw and be caught.
Inside an array a function serializes as `null`; as an object member it is
omitted.  `Value.vnull` serializes as `null` (JavaScript `null` does;
`undefined` members would be omitted, but the merged constructor follows the
`null` reading — no claim serializes an object holding undefined).  A
`SafeString` is a plain object with the single own field `value`. -/
def jsonStr : Value → Option String
  | .vnull => some ("null")
  | .bool b => some (cond b ("true") ("false"))
  | .num n => some (toString n)
  | .str s => some (jsonQuote s)
  | .seq l => some ("[" ++ joinComma (jsonArrParts l) ++ "]")
  | .obj es => some ("\x7b" ++ joinComma (jsonObjParts es) ++ "\x7d")
  | .safeStr s => some ("\x7b" ++ jsonQuote ("value") ++ ":" ++ jsonQuote s ++ "\x7d")
  | .callable _ => none

def jsonArrParts : List Value → List String
  | [] => []
  | v :: rest => ((jsonStr v).getD ("null")) :: jsonArrParts rest

def jsonObjParts : List (String × Value) → List String
  | [] => []
  | (k, v) :: rest =>
    match jsonStr v with
    | none => jsonObjParts rest
    | some j => (jsonQuote k ++ ":" ++ j) :: jsonObjParts rest

end

/-- The `escapejs` escaping passes, in source order: backslash, double
quote, single quote, U+2028, U+2029, then the case-insensitive `</script`
defusing. -/
def escapeJsStr (s : String) : String :=
  let p1 := replaceChar s.data '\\' ("\\\\".data)
  let p2 := replaceChar p1 '"' (("\\" ++ "\"").data)
  let p3 := replaceChar p2 '\'' ("\\\x27".data)
  let p4 := replaceChar p3 '\u2028' ("\\u2028".data)
  let p5 := replaceChar p4 '\u2029' ("\\u2029".data)
  (replScript (p5.length + 1) p5).asString

/-- `String.prototype.toUpperCase` / `toLowerCase` on the ASCII range the
claims exercise (JavaScript full-Unicode case mapping agrees there). -/
def jsToUpper (s : String) : String :=
  (s.data.map Char.toUpper).asString

def jsToLower (s : String) : String :=
  (s.data.map Char.toLower).asString

/-- The filter registry (src/lib/djeno.ts:552-623): `upper`, `lower`,
`safe`, `escapejs`, `raw_json`, `raw_json_escaped` (an alias of `raw_json`),
`json_script`.  Unknown names are absent.  The second argument of a filter
function is the evaluated `:arg` (undefined when absent). -/
def filterUpper : Value → Value → Value
  | .str s, _ => .str (jsToUpper s)
  | v, _ => v

def filterLower : Value → Value → Value
  | .str s, _ => .str (jsToLower s)
  | v, _ => v

def filterSafe : Value → Value → Value
  | .vnull, _ => .safeStr ("")
  | v, _ => .safeStr (valueToString v)

def filterEscapejs : Value → Value → Value
  | .vnull, _ => .str ("\"" ++ "\"")
  | v, _ => .str ("\"" ++ escapeJsStr (valueToString v) ++ "\"")

def filterRawJson : Value → Value → Value :=
  fun v _ =>
    match jsonStr v with
    | some j => .safeStr (escapeClosingScript j)
    | none => .safeStr ("null")

def filterJsonScript : Value → Value → Value :=
  fun v arg =>
    let id := match arg with
      | .str s => s
      | .vnull => "__data__"
      | a => valueToString a
    match jsonStr v with
    | some j =>
      .safeStr ("<script id=" ++ "\"" ++ escapeHtml id ++ "\"" ++
        " type=" ++ "\"" ++ "application/json" ++ "\"" ++ ">" ++
        escapeClosingScript j ++ "</script>")
    | none =>
      .safeStr ("<script id=" ++ "\"" ++ escapeHtml id ++ "\"" ++
        " type=" ++ "\"" ++ "application/json" ++ "\"" ++ ">null</script>")

def filtersLookup : String → Option (Value → Value → Value)
  | "upper" => some filterUpper
  | "lower" => some filterLower
  | "safe" => some filterSafe
  | "escapejs" => some filterEscapejs
  | "raw_json" => some filterRawJson
  | "raw_json_escaped" => some filterRawJson
  | "json_script" => some filterJsonScript
  | _ => none

/-- Index of the first occurrence of a character. -/
def charIdxOf (s : String) (c : Char) : Option Nat :=
  s.data.findIdx? (fun x => x == c)

/-- The filter name of a pipeline segment, as `applyFilters`
(src/lib/djeno.ts:1018) extracts it: the whole segment, or the trimmed text
before the first `:`. -/
def segName (f : String) : String :=
  match charIdxOf f ':' with
  | none => f
  | some i => jsTrim (f.data.take i).asString

/-- The evaluated filter argument of a pipeline segment: undefined when the
segment has no `:`, otherwise the trimmed text after the first `:` evaluated
as an expression against the same context (so filter arguments may reference
context variables, not only literals). -/
def segArg (f : String) (ctx : Ctx) : Value :=
  match charIdxOf f ':' with
  | none => Value.vnull
  | some i => getValue (jsTrim (f.data.drop (i + 1)).asString) ctx

/-- One segment of `applyFilters` (src/lib/djeno.ts:1018): an empty segment
is skipped; an unknown filter name leaves the value unchanged. -/
def applyOne (v : Value) (f : String) (ctx : Ctx) : Value :=
  if f == "" then v
  else
    match filtersLookup (segName f) with
    | some fn => fn v (segArg f ctx)
    | none => v

/-- `applyFilters`: filters apply left to right, the output of one feeding
the next. -/
def applyFilters (v : Value) (segs : List String) (ctx : Ctx) : Value :=
  segs.foldl (fun acc f => applyOne acc f ctx) v

/-- `evalVarExpression` (src/lib/djeno.ts:1042): split the expression on
unquoted `|`; evaluate the head, then pipe it through the filter segments. -/
def evalVarExpression (expr : String) (ctx : Ctx) : Value :=
  match splitUnquoted expr '|' with
  | [] => .vnull
  | m :: fsegs => applyFilters (getValue m ctx) fsegs ctx

/-- Token kinds produced by the lexer. -/
inductive TKind where
  | text
  | var
  | tag
  | comment
deriving Repr, DecidableEq

/-- A lexer token: kind, content (trimmed for var/tag, raw for comment and
text), and the 1-indexed line/column of its first character
(`countLineCol`, src/lib/djeno.ts:625; the raw offset field is consulted
nowhere downstream and is omitted). -/
structure Tok where
  kind : TKind
  content : String
  line : Nat
  col : Nat
deriving Repr, DecidableEq

/-- `countLineCol`: 1-indexed line and column of the character at `index`,
by scanning the preceding characters. -/
def countLineCol (cs : List Char) (index : Nat) : Nat × Nat :=
  (cs.take index).foldl
    (fun lc c => if c == '\n' then (lc.1 + 1, 1) else (lc.1, lc.2 + 1)) (1, 1)

/-- First index at which `pat` occurs in the characters. -/
def findSub (pat : List Char) : List Char → Option Nat
  | [] => none
  | c :: rest =>
    if startsWithL pat (c :: rest) then some 0
    else (findSub pat rest).map (· + 1)

/-- Find the next delimited token in the suffix, emulating the global regex
`({{\s*([\s\S]*?)\s*}})|({%\s*([\s\S]*?)\s*%})|({#([\s\S]*?)#})`: the match
starts at the first position carrying an opener whose closer occurs later
(an opener with no closer falls through as text, never an error), the
non-greedy body ends at the first closer.  Returns the opener's offset, the
kind, the raw inner characters, and the offset just past the closer
relative to the opener. -/
def findOpenTok : List Char → Option (Nat × TKind × List Char × Nat)
  | [] => none
  | c :: rest =>
    let cs := c :: rest
    let shifted := fun (r : Option (Nat × TKind × List Char × Nat)) =>
      r.map (fun (o, k, inn, e) => (o + 1, k, inn, e))
    if startsWithL ("\x7b\x7b".data) cs then
      match findSub ("\x7d\x7d".data) (cs.drop 2) with
      | some q => some (0, .var, (cs.drop 2).take q, 2 + q + 2)
      | none => shifted (findOpenTok rest)
    else if startsWithL ("\x7b%".data) cs then
      match findSub ("%\x7d".data) (cs.drop 2) with
      | some q => some (0, .tag, (cs.drop 2).take q, 2 + q + 2)
      | none => shifted (findOpenTok rest)
    else if startsWithL ("\x7b#".data) cs then
      match findSub ("#\x7d".data) (cs.drop 2) with
      | some q => some (0, .comment, (cs.drop 2).take q, 2 + q + 2)
      | none => shifted (findOpenTok rest)
    else shifted (findOpenTok rest)

/-- Lexer loop (src/lib/djeno.ts:640): emit the gap before each delimiter
match verbatim as a text token, the match itself as a var/tag/comment token
(var and tag contents trimmed, comment content raw), then continue past the
closer; trailing characters become a final text token.  `whole` and `base`
only serve position computation; fuel is the suffix length (each token
consumes at least four characters). -/
def lexGo (whole : List Char) : Nat → Nat → List Char → List Tok
  | 0, _, _ => []
  | _ + 1, base, [] =>
    let _ := base
    []
  | fl + 1, base, suffix =>
    match findOpenTok suffix with
    | none =>
      let lc := countLineCol whole base
      [⟨.text, suffix.asString, lc.1, lc.2⟩]
    | some (off, k, inner, eoff) =>
      let pre : List Tok :=
        if off > 0 then
          let lc := countLineCol whole base
          [⟨.text, (suffix.take off).asString, lc.1, lc.2⟩]
        else []
      let lc := countLineCol whole (base + off)
      let content := match k with
        | .comment => inner.asString
        | _ => jsTrim inner.asString
      pre ++ ⟨k, content, lc.1, lc.2⟩ ::
        lexGo whole fl (base + off + eoff) (suffix.drop (off + eoff))

/-- `lex` (src/lib/djeno.ts:640). -/
def lex (template : String) : List Tok :=
  lexGo template.data (template.length + 1) 0 template.data

/-- The document tree (src/lib/djeno.ts `Node`).  A conditional branch is
`(test, body)` with `none` marking the `else` fallback.  Node positions are
diagnostic-only in the source and consulted nowhere, so they are omitted;
the parser's unclosed-tag diagnostics come from frame positions, which are
kept. -/
inductive Node where
  | text (t : String)
  | var (expr : String)
  | cond (branches : List (Option String × List Node))
  | forN (varNames : List String) (iterableExpr : String) (body : List Node)
  | includeN (path : String)
  | block (name : String) (body : List Node)
  | extendsN (path : String)
deriving Repr

/-- Structural (parse-time) and render-time errors.  The source throws
`Error` objects with formatted messages (`Unclosed tag at L:C` etc.); the
model keeps them structured.  `ioError` models `Deno.readTextFileSync`
throwing on a missing path; `outOfFuel` is the model's bound on the
source's unbounded cross-template recursion. -/
inductive TplError where
  | unexpectedTag (tag : String) (line col : Nat)
  | invalidTag (tag : String) (line col : Nat)
  | unclosedTag (line col : Nat)
  | ioError (path : String)
  | outOfFuel
deriving Repr, DecidableEq

/-- Parser stack frames (src/lib/djeno.ts `StackFrame`): an if-frame's
`current` index always equals `branches.length - 1` (it is set to that on
every `elif`/`else`), so insertion into the current branch is insertion
into the last branch. -/
inductive Frame where
  | ifF (branches : List (Option String × List Node)) (line col : Nat)
  | forF (varNames : List String) (iterableExpr : String) (nodes : List Node) (line col : Nat)
  | blockF (name : String) (nodes : List Node) (line col : Nat)
deriving Repr

/-- Position of a frame's opening tag. -/
def framePos : Frame → Nat × Nat
  | .ifF _ l c => (l, c)
  | .forF _ _ _ l c => (l, c)
  | .blockF _ _ l c => (l, c)

/-- Append a node to the body of the last branch. -/
def appendToLastBranch (branches : List (Option String × List Node)) (n : Node) :
    List (Option String × List Node) :=
  match branches.getLast? with
  | none => branches
  | some (t, body) => branches.dropLast ++ [(t, body ++ [n])]

/-- `pushNode`: into the top-level output when the stack is empty, else into
the top frame (an if-frame receives it in its current — last — branch). -/
def pushNode (out : List Node) (stack : List Frame) (n : Node) :
    List Node × List Frame :=
  match stack with
  | [] => (out ++ [n], [])
  | .ifF branches l c :: rest => (out, .ifF (appendToLastBranch branches n) l c :: rest)
  | .forF v e nodes l c :: rest => (out, .forF v e (nodes ++ [n]) l c :: rest)
  | .blockF nm nodes l c :: rest => (out, .blockF nm (nodes ++ [n]) l c :: rest)

/-- Characters after the first `n`, as a string. -/
def strDropN (s : String) (n : Nat) : String :=
  (s.data.drop n).asString

/-- Helper loop of `splitOnChar`. -/
def splitOnCharGo (sep : Char) : List Char → List Char → List String
  | [], buf => [buf.reverse.asString]
  | c :: rest, buf =>
    if c == sep then buf.reverse.asString :: splitOnCharGo sep rest []
    else splitOnCharGo sep rest (c :: buf)

/-- Plain split on a character (JavaScript `String.prototype.split`), no
quote awareness — used for the `for` tag's comma-separated names. -/
def splitOnChar (s : String) (sep : Char) : List String :=
  splitOnCharGo sep s.data []

/-- Match `^for\s+(.+?)\s+in\s+([\s\S]+)$` against a tag content: requires
the `for` keyword, at least one whitespace, then the lazily-minimal name
list up to the first `\s+in\s+` with at least one character remaining.
Returns the raw name-list text and the trimmed iterable expression. -/
def forSplitAux : List Char → List Char → Option (String × String)
  | _, [] => none
  | acc, c :: rest =>
    let tryHere : Option (String × String) :=
      if acc.isEmpty || !c.isWhitespace then none
      else
        match (c :: rest).dropWhile Char.isWhitespace with
        | 'i' :: 'n' :: r2 =>
          if r2.length ≥ 2 && (r2.head?.map Char.isWhitespace).getD false then
            some (acc.reverse.asString, jsTrim r2.asString)
          else none
        | _ => none
    match tryHere with
    | some res => some res
    | none => forSplitAux (c :: acc) rest

def forMatch (content : String) : Option (String × String) :=
  match content.data with
  | 'f' :: 'o' :: 'r' :: rest =>
    if (rest.head?.map Char.isWhitespace).getD false then
      forSplitAux [] (rest.dropWhile Char.isWhitespace)
    else none
  | _ => none

/-- Match `^block\s+(\w+)$`: keyword, whitespace, then a nonempty word-only
name extending to the end. -/
def blockMatch (content : String) : Option String :=
  match content.data with
  | 'b' :: 'l' :: 'o' :: 'c' :: 'k' :: rest =>
    if (rest.head?.map Char.isWhitespace).getD false then
      let nm := rest.dropWhile Char.isWhitespace
      if !nm.isEmpty && nm.all (fun c => c.isAlphanum || c == '_') then
        some nm.asString
      else none
    else none
  | _ => none

/-- Match `^<kw>\s+["']([\s\S]+?)["']$` (the `include`/`extends` argument):
keyword, whitespace, then an argument whose first and last characters are
each either quote character — the two ends need not match — with a nonempty
middle, which is the path. -/
def isQuoteChar (c : Char) : Bool :=
  c == '"' || c == '\''

def quotedArgMatch (kw : String) (content : String) : Option String :=
  if startsWithL kw.data content.data then
    let rest := content.data.drop kw.length
    if (rest.head?.map Char.isWhitespace).getD false then
      let arg := rest.dropWhile Char.isWhitespace
      if arg.length ≥ 3 && (arg.head?.map isQuoteChar).getD false &&
          (arg.getLast?.map isQuoteChar).getD false then
        some ((arg.drop 1).dropLast.asString)
      else none
    else none
  else none

/-- The parser loop (src/lib/djeno.ts:718): one left-to-right pass over the
tokens maintaining the frame stack; see the claims'
theorems for the per-tag behavior.  The innermost open frame is the head of
`stack`. -/
def parseLoop : List Tok → List Node → List Frame → Except TplError (List Node)
  | [], out, [] => .ok out
  | [], _, f :: _ => .error (.unclosedTag (framePos f).1 (framePos f).2)
  | t :: rest, out, stack =>
    match t.kind with
    | .comment => parseLoop rest out stack
    | .text =>
      let (out', stack') := pushNode out stack (.text t.content)
      parseLoop rest out' stack'
    | .var =>
      let (out', stack') := pushNode out stack (.var t.content)
      parseLoop rest out' stack'
    | .tag =>
      let tag := (splitUnquoted t.content ' ').headD ("")
      if tag == "if" then
        let test := jsTrim (strDropN t.content 2)
        parseLoop rest out (.ifF [(some test, [])] t.line t.col :: stack)
      else if tag == "elif" || tag == "else" then
        match stack with
        | .ifF branches l c :: srest =>
          let cond : Option String :=
            if tag == "elif" then some (jsTrim (strDropN t.content 4)) else none
          parseLoop rest out (.ifF (branches ++ [(cond, [])]) l c :: srest)
        | _ => .error (.unexpectedTag tag t.line t.col)
      else if tag == "endif" then
        match stack with
        | .ifF branches _ _ :: srest =>
          let (out', stack') := pushNode out srest (.cond branches)
          parseLoop rest out' stack'
        | _ => .error (.unexpectedTag ("endif") t.line t.col)
      else if tag == "for" then
        match forMatch t.content with
        | some (names, iter) =>
          let varNames := ((splitOnChar names ',').map jsTrim).filter (fun s => !(s == ""))
          parseLoop rest out (.forF varNames iter [] t.line t.col :: stack)
        | none => .error (.invalidTag ("for") t.line t.col)
      else if tag == "endfor" then
        match stack with
        | .forF v e nodes _ _ :: srest =>
          let (out', stack') := pushNode out srest (.forN v e nodes)
          parseLoop rest out' stack'
        | _ => .error (.unexpectedTag ("endfor") t.line t.col)
      else if tag == "include" then
        match quotedArgMatch ("include") t.content with
        | some path =>
          let (out', stack') := pushNode out stack (.includeN path)
          parseLoop rest out' stack'
        | none => .error (.invalidTag ("include") t.line t.col)
      else if tag == "block" then
        match blockMatch t.content with
        | some nm => parseLoop rest out (.blockF nm [] t.line t.col :: stack)
        | none => .error (.invalidTag ("block") t.line t.col)
      else if tag == "endblock" then
        match stack with
        | .blockF nm nodes _ _ :: srest =>
          let (out', stack') := pushNode out srest (.block nm nodes)
          parseLoop rest out' stack'
        | _ => .error (.unexpectedTag ("endblock") t.line t.col)
      else if tag == "extends" then
        match quotedArgMatch ("extends") t.content with
        | some path =>
          let (out', stack') := pushNode out stack (.extendsN path)
          parseLoop rest out' stack'
        | none => .error (.invalidTag ("extends") t.line t.col)
      else
        let (out', stack') := pushNode out stack (.text ("\x7b% " ++ t.content ++ " %\x7d"))
        parseLoop rest out' stack'

/-- `parse` (src/lib/djeno.ts:718). -/
def parse (tokens : List Tok) : Except TplError (List Node) :=
  parseLoop tokens [] []

/-- The file system behind the loader collaborator: logical path to source
text.  The `TemplateLoader` cache never changes observable results (parsing
is pure), so loading is modelled as lex-then-parse of the stored source; a
missing path models the loader's I/O error, which `load` does not catch. -/
abbrev FS := List (String × String)

/-- `TemplateLoader.load` (src/lib/djeno.ts:1186), returning the parsed
tree. -/
def load (fs : FS) (path : String) : Except TplError (List Node) :=
  match fs.find? (fun p => p.1 == path) with
  | some p => parse (lex p.2)
  | none => .error (.ioError path)

/-- First pass of `renderNodes` (src/lib/djeno.ts:1061): collect the
top-level blocks into a name-to-body map, a later block of the same name
overwriting an earlier one. -/
def collectBlocks (nodes : List Node) : List (String × List Node) :=
  nodes.foldl
    (fun m n =>
      match n with
      | .block name body =>
        if m.any (fun p => p.1 == name) then
          m.map (fun p => if p.1 == name then (name, body) else p)
        else m ++ [(name, body)]
      | _ => m)
    []

/-- Detect an `extends` node at the top level; the last one wins. -/
def findExtendsPath (nodes : List Node) : Option String :=
  nodes.foldl
    (fun acc n => match n with | .extendsN p => some p | _ => acc) none

def lookupBlocks (cb : List (String × List Node)) (name : String) : Option (List Node) :=
  (cb.find? (fun p => p.1 == name)).map (fun p => p.2)

/-- Update a context key (JavaScript `{ ...context, [name]: v }`): replace
in place when present, else append. -/
def ctxSet (ctx : Ctx) (k : String) (v : Value) : Ctx :=
  if ctx.any (fun p => p.1 == k) then
    ctx.map (fun p => if p.1 == k then (k, v) else p)
  else ctx ++ [(k, v)]

/-- Loop-variable binding for an array element.  One name receives the
element; several names positionally destructure an array element (missing
positions bind to undefined), and all bind undefined when the element is not
an array; no names leave the derived context unchanged. -/
def bindLoopSeq (ctx : Ctx) (names : List String) (it : Value) : Ctx :=
  match names with
  | [x] => ctxSet ctx x it
  | _ =>
    match it with
    | .seq l =>
      (names.enum).foldl (fun a p => ctxSet a p.2 ((l.get? p.1).getD .vnull)) ctx
    | _ => names.foldl (fun a nm => ctxSet a nm .vnull) ctx

/-- Loop-variable binding for an object entry.  One name receives the value;
two or more names bind the key and the value (further names stay unbound). -/
def bindLoopObj (ctx : Ctx) (names : List String) (k : String) (v : Value) : Ctx :=
  match names with
  | [x] => ctxSet ctx x v
  | n0 :: n1 :: _ => ctxSet (ctxSet ctx n0 (.str k)) n1 v
  | [] => ctx

/-- What the `for` node iterates (src/lib/djeno.ts:1101,
`getValueFromExpr(...) || []` then `Array.isArray` / `typeof "object"`
dispatch): an array iterates its elements; a plain object iterates its
entries in insertion order; a `SafeString` is a runtime object with the
single own field `value` and iterates that one entry; every other value —
falsy values via `|| []`, truthy strings/numbers/booleans/functions by
failing both branch tests — yields zero iterations, never an error. -/
inductive LoopSrc where
  | seqSrc (l : List Value)
  | objSrc (entries : List (String × Value))

def loopSource : Value → LoopSrc
  | .seq l => .seqSrc l
  | .obj es => .objSrc es
  | .safeStr s => .objSrc [("value", .str s)]
  | _ => .seqSrc []

/-- Rendering of a single variable node (src/lib/djeno.ts:1076): evaluate
the filtered expression; null/undefined render empty; a `SafeString` emits
its wrapped text verbatim; anything else is stringified and HTML-escaped. -/
def renderVar (expr : String) (ctx : Ctx) : String :=
  match evalVarExpression expr ctx with
  | .vnull => ""
  | .safeStr s => s
  | v => escapeHtml (valueToString v)

/-- The branch scan of a conditional (src/lib/djeno.ts:1091), abstracted
over the same-level tree renderer `rn` (the source's recursive
`renderNodes(br.body, context, loader)`): the first branch whose test is
null or evaluates true renders; nothing otherwise. -/
def renderIfH (rn : List Node → Ctx → Except TplError String) (ctx : Ctx) :
    List (Option String × List Node) → Except TplError String
  | [] => .ok ("")
  | (none, body) :: _ => rn body ctx
  | (some t, body) :: rest =>
    if evalTestExpression t ctx then rn body ctx
    else renderIfH rn ctx rest

/-- Sequence iteration of a `for` node: one body render per element against
the derived context, concatenated in element order; a body error
propagates. -/
def renderLoopSeqH (rn : List Node → Ctx → Except TplError String)
    (names : List String) (body : List Node) (ctx : Ctx) :
    List Value → Except TplError String
  | [] => .ok ("")
  | it :: rest =>
    match rn body (bindLoopSeq ctx names it) with
    | .error e => .error e
    | .ok s =>
      match renderLoopSeqH rn names body ctx rest with
      | .error e => .error e
      | .ok t => .ok (s ++ t)

/-- Mapping iteration of a `for` node, in insertion order. -/
def renderLoopObjH (rn : List Node → Ctx → Except TplError String)
    (names : List String) (body : List Node) (ctx : Ctx) :
    List (String × Value) → Except TplError String
  | [] => .ok ("")
  | (k, v) :: rest =>
    match rn body (bindLoopObj ctx names k v) with
    | .error e => .error e
    | .ok s =>
      match renderLoopObjH rn names body ctx rest with
      | .error e => .error e
      | .ok t => .ok (s ++ t)

/-- One node of the non-inheriting render path (src/lib/djeno.ts:1074),
abstracted over the tree renderer used for child trees (include targets,
block bodies, branch bodies, loop bodies).  An `extends` node reaching this
point falls through to the source's final `return ""` (unreachable in
practice: `renderNodes` diverts to parent composition first). -/
def renderNodeH (rn : List Node → Ctx → Except TplError String) (fs : FS)
    (ctx : Ctx) : Node → Except TplError String
  | .text t => .ok t
  | .var e => .ok (renderVar e ctx)
  | .includeN p =>
    match load fs p with
    | .error e => .error e
    | .ok ast => rn ast ctx
  | .block _ body => rn body ctx
  | .cond branches => renderIfH rn ctx branches
  | .forN names e body =>
    match loopSource (getValue e ctx) with
    | .seqSrc l => renderLoopSeqH rn names body ctx l
    | .objSrc es => renderLoopObjH rn names body ctx es
  | .extendsN _ => .ok ("")

/-- The node-by-node output concatenation of `renderNodes`'s main loop. -/
def renderListH (rn : List Node → Ctx → Except TplError String) (fs : FS)
    (ctx : Ctx) : List Node → Except TplError String
  | [] => .ok ("")
  | n :: rest =>
    match renderNodeH rn fs ctx n with
    | .error e => .error e
    | .ok s =>
      match renderListH rn fs ctx rest with
      | .error e => .error e
      | .ok t => .ok (s ++ t)

/-- `renderParentWithChild` (src/lib/djeno.ts:1143), abstracted over the
tree renderer `rn` and the parent-composition renderer `rpwc`: walk the
parent's top-level nodes; a `Block` renders the child override when the map
has the name, else its own default body; an `Extends` recurses into the
grandparent with the SAME child map (the map passed along is the original
leaf's — the walked template's own blocks are not added to it) and the walk
then continues over the remaining nodes; an `Include` renders
independently; anything else renders as a one-node sequence. -/
def renderPWCH (rn : List Node → Ctx → Except TplError String)
    (rpwc : List (String × List Node) → List Node → Ctx → Except TplError String)
    (fs : FS) (ctx : Ctx) (childBlocks : List (String × List Node)) :
    List Node → Except TplError String
  | [] => .ok ("")
  | n :: rest =>
    let head : Except TplError String :=
      match n with
      | .block name body =>
        match lookupBlocks childBlocks name with
        | some b => rn b ctx
        | none => rn body ctx
      | .extendsN p =>
        match load fs p with
        | .error e => .error e
        | .ok ast => rpwc childBlocks ast ctx
      | .includeN p =>
        match load fs p with
        | .error e => .error e
        | .ok ast => rn ast ctx
      | other => rn [other] ctx
    match head with
    | .error e => .error e
    | .ok s =>
      match renderPWCH rn rpwc fs ctx childBlocks rest with
      | .error e => .error e
      | .ok t => .ok (s ++ t)

/-- The two recursion modes of the renderer: a plain `renderNodes` walk, or
a `renderParentWithChild` walk carrying the accumulated child block map. -/
inductive RenderMode where
  | top
  | pwc (childBlocks : List (String × List Node))

/-- The renderer's cross-template recursion, bounded by fuel (the source
recurses unboundedly through `loader.load`; a cyclic `extends` diverges).
In `top` mode this is `renderNodes` (src/lib/djeno.ts:1051): collect blocks
and the (last) `extends` path; with an `extends`, defer entirely to parent
composition; otherwise render the nodes in order.  In `pwc` mode it is one
`renderParentWithChild` walk. -/
def renderCore (fs : FS) : Nat → RenderMode → List Node → Ctx → Except TplError String
  | 0, _, _, _ => .error .outOfFuel
  | f + 1, .top, nodes, ctx =>
    match findExtendsPath nodes with
    | some p =>
      match load fs p with
      | .error e => .error e
      | .ok ast => renderCore fs f (.pwc (collectBlocks nodes)) ast ctx
    | none => renderListH (fun ns c => renderCore fs f .top ns c) fs ctx nodes
  | f + 1, .pwc cb, nodes, ctx =>
    renderPWCH (fun ns c => renderCore fs f .top ns c)
      (fun cb2 ns c => renderCore fs f (.pwc cb2) ns c) fs ctx cb nodes

/-- `renderNodes` at a given fuel. -/
def renderNodes (fuel : Nat) (nodes : List Node) (ctx : Ctx) (fs : FS) :
    Except TplError String :=
  renderCore fs fuel .top nodes ctx

/-- `renderParentWithChild` at a given fuel. -/
def renderPWC (fuel : Nat) (parentNodes : List Node) (ctx : Ctx) (fs : FS)
    (childBlocks : List (String × List Node)) : Except TplError String :=
  renderCore fs fuel (.pwc childBlocks) parentNodes ctx

/-- `renderTemplate` (src/lib/djeno.ts:1200): load (lex + parse, errors
propagating) then render. -/
def renderTemplate (fuel : Nat) (fs : FS) (path : String) (ctx : Ctx) :
    Except TplError String :=
  match load fs path with
  | .error e => .error e
  | .ok ast => renderNodes fuel ast ctx fs

/-- Is the value a `SafeString` wrapper? -/
def isSafeV : Value → Bool
  | .safeStr _ => true
  | _ => false

/-- Is the value a callable (JavaScript `typeof v === "function"`)? -/
def isCallableV : Value → Bool
  | .callable _ => true
  | _ => false

/-- Is the value a number (JavaScript `typeof v === "number"`)? -/
def numKind : Value → Bool
  | .num _ => true
  | _ => false

/-- Values the `for` node actually iterates: arrays, plain objects, and the
`SafeString` runtime object.  Everything else yields zero iterations. -/
def isIterableV : Value → Bool
  | .seq _ => true
  | .obj _ => true
  | .safeStr _ => true
  | _ => false

/-- Specification-side branch selection, phrased from the spec's words:
"evaluate branch tests in source order and render the body of the first
branch whose test is true or whose test is null (the else fallback)";
`none` when no branch matches.  Compared against the engine's `renderIf`
loop. -/
def selectBranch : List (Option String × List Node) → Ctx → Option (List Node)
  | [], _ => none
  | (none, body) :: _, _ => some body
  | (some t, body) :: rest, ctx =>
    if evalTestExpression t ctx then some body else selectBranch rest ctx

/-- Concatenation of per-iteration render results in iteration order, the
first error propagating. -/
def concatExcept : List (Except TplError String) → Except TplError String
  | [] => .ok ("")
  | r :: rest =>
    match r with
    | .error e => .error e
    | .ok s =>
      match concatExcept rest with
      | .error e => .error e
      | .ok t => .ok (s ++ t)

/-- The claim-C8 well-formedness of one conditional's branch list: every
branch before the last has a non-null test (equivalently: at most one null
test, and a null test only in the last position). -/
def condBranchesLastElse (bs : List (Option String × List Node)) : Bool :=
  bs.dropLast.all (fun b => b.1.isSome)

mutual

/-- Claim C8's property recursively over a tree: every `Conditional` node
has at most one null-test branch, and only in the last position. -/
def nodeElseOk : Node → Bool
  | .cond bs => condBranchesLastElse bs && branchesElseOk bs
  | .forN _ _ body => nodesElseOk body
  | .block _ body => nodesElseOk body
  | _ => true

def nodesElseOk : List Node → Bool
  | [] => true
  | n :: rest => nodeElseOk n && nodesElseOk rest

def branchesElseOk : List (Option String × List Node) → Bool
  | [] => true
  | (_, body) :: rest => nodesElseOk body && branchesElseOk rest

end

/-! ## Theorems -/

/-- A chain whose current value is already null/undefined short-circuits,
whatever evaluator serves the index sub-expressions. -/
theorem walkChainH_null_cons (ev : String → Ctx → Value) (ctx : Ctx)
    (s : Step) (rest : List Step) :
    walkChainH ev ctx .vnull (s :: rest) = .vnull := by
  simp [walkChainH, isVNull]

/-- The engine's conditional-branch loop agrees with the specification's
first-match selection, whatever renderer serves the branch bodies. -/
theorem renderIfH_eq_selectBranch (rn : List Node → Ctx → Except TplError String)
    (ctx : Ctx) :
    ∀ branches, renderIfH rn ctx branches =
      match selectBranch branches ctx with
      | some body => rn body ctx
      | none => .ok ("")
  | [] => by simp [renderIfH, selectBranch]
  | (none, body) :: rest => by simp [renderIfH, selectBranch]
  | (some t, body) :: rest => by
    by_cases h : evalTestExpression t ctx
    · simp [renderIfH, selectBranch, h]
    · simp only [renderIfH, selectBranch, h, if_false]
      exact renderIfH_eq_selectBranch rn ctx rest

/-- A sequence loop renders the body once per element against the derived
context, concatenating in element order. -/
theorem renderLoopSeqH_eq_concat (rn : List Node → Ctx → Except TplError String)
    (names : List String) (body : List Node) (ctx : Ctx) :
    ∀ items, renderLoopSeqH rn names body ctx items =
      concatExcept (items.map (fun it => rn body (bindLoopSeq ctx names it)))
  | [] => by simp [renderLoopSeqH, concatExcept]
  | it :: rest => by
    simp only [renderLoopSeqH, List.map, concatExcept,
      renderLoopSeqH_eq_concat rn names body ctx rest]

/-- A mapping loop renders the body once per entry against the derived
context, concatenating in insertion order. -/
theorem renderLoopObjH_eq_concat (rn : List Node → Ctx → Except TplError String)
    (names : List String) (body : List Node) (ctx : Ctx) :
    ∀ entries, renderLoopObjH rn names body ctx entries =
      concatExcept (entries.map (fun kv => rn body (bindLoopObj ctx names kv.1 kv.2)))
  | [] => by simp [renderLoopObjH, concatExcept]
  | (k, v) :: rest => by
    simp only [renderLoopObjH, List.map, concatExcept,
      renderLoopObjH_eq_concat rn names body ctx rest]

/-- The embedded lexicographic order on character lists coincides with the
ambient (Mathlib lexicographic) order on `List Char`. -/
theorem charListLt_iff (as : List Char) : ∀ bs, charListLt as bs = true ↔ as < bs := by
  induction as with
  | nil =>
    intro bs
    cases bs with
    | nil =>
      simp only [charListLt, Bool.false_eq_true, false_iff]
      intro h
      cases h
    | cons b bs =>
      simp only [charListLt, true_iff]
      exact List.Lex.nil
  | cons a as ih =>
    intro bs
    cases bs with
    | nil =>
      simp only [charListLt, Bool.false_eq_true, false_iff]
      intro h
      cases h
    | cons b bs =>
      simp only [charListLt]
      by_cases h1 : a < b
      · simp only [h1, if_true, true_iff]
        exact List.Lex.rel h1
      · by_cases h2 : b < a
        · simp only [h1, h2, if_true, if_false, Bool.false_eq_true, false_iff]
          intro h
          cases h with
          | rel hab => exact h1 hab
          | cons _ => exact lt_irrefl a h2
        · have hab : a = b := le_antisymm (le_of_not_lt h2) (le_of_not_lt h1)
          subst hab
          simp only [h1, h2, if_false, ih bs]
          constructor
          · intro htl
            exact List.Lex.cons htl
          · intro h
            cases h with
            | rel hab => exact absurd hab h1
            | cons htl => exact htl

/-- `charListLt` as a `decide` over the ambient order. -/
theorem charListLt_eq_decide (as bs : List Char) :
    charListLt as bs = decide (as < bs) := by
  by_cases h : as < bs
  · simp [h, (charListLt_iff as bs).2 h]
  · have hne : charListLt as bs ≠ true := fun hc => h ((charListLt_iff as bs).1 hc)
    simp [h, Bool.not_eq_true] at hne ⊢
    exact hne

/-- The embedded JavaScript string comparison coincides with the Lean
`String` order. -/
theorem jsStrLt_eq_decide (l r : String) : jsStrLt l r = decide (l < r) := by
  rw [jsStrLt, charListLt_eq_decide]
  exact (decide_eq_decide.mpr String.lt_iff_toList_lt.symm)

/-- C1: rendering a Variable node evaluates the filtered expression and
emits the empty string for a null/undefined value, the wrapped text verbatim
for a SafeString value, and the HTML-escaped string form (ampersand,
less-than, greater-than, double-quote, single-quote each replaced by their
entities) for every other value.  Concretely, for the context binding s to
the string with those five characters, rendering the variable tag around s
yields the escaped entity string, and piping s through the safe filter
yields the raw input unescaped. -/
theorem C1_variable_escaping :
    (∀ rn fs ctx e, renderNodeH rn fs ctx (.var e) = .ok (renderVar e ctx)) ∧
    (∀ e ctx, evalVarExpression e ctx = .vnull → renderVar e ctx = "") ∧
    (∀ e ctx s, evalVarExpression e ctx = .safeStr s → renderVar e ctx = s) ∧
    (∀ e ctx v, evalVarExpression e ctx = v → isVNull v = false → isSafeV v = false →
      renderVar e ctx = escapeHtml (valueToString v)) ∧
    renderTemplate 20 [("t.html", "\x7b\x7b s \x7d\x7d")] ("t.html")
      [("s", .str ("<b>&\x27\""))] = .ok ("&lt;b&gt;&amp;&#39;&quot;") ∧
    renderTemplate 20 [("t.html", "\x7b\x7b s | safe \x7d\x7d")] ("t.html")
      [("s", .str ("<b>&\x27\""))] = .ok ("<b>&\x27\"") := by
  refine ⟨fun rn fs ctx e => rfl, ?_, ?_, ?_, rfl, rfl⟩
  · intro e ctx h
    simp [renderVar, h]
  · intro e ctx s h
    simp [renderVar, h]
  · intro e ctx v h h1 h2
    cases v <;> simp_all [renderVar, isVNull, isSafeV]

/-- Witness for the hypothesis-bearing conjuncts of `C1_variable_escaping`,
at concrete inputs. -/
theorem C1_variable_escaping_witness :
    renderVar ("missing") [] = "" ∧
    renderVar ("s | safe") [("s", .str ("<b>"))] = "<b>" ∧
    renderVar ("s") [("s", .str ("<b>"))] = escapeHtml (valueToString (.str ("<b>"))) :=
  ⟨C1_variable_escaping.2.1 ("missing") [] rfl,
   C1_variable_escaping.2.2.1 ("s | safe") [("s", .str ("<b>"))] ("<b>") rfl,
   C1_variable_escaping.2.2.2.1 ("s") [("s", .str ("<b>"))] (.str ("<b>")) rfl rfl rfl⟩

/-- C2: a Conditional renders exactly the body of the first branch whose
test is true or whose test is null (the else fallback), and the empty
string when no branch matches; concretely, context x = 5 against the
if x gt 10 / elif x gt 3 / else template renders exactly B. -/
theorem C2_conditional_first_match :
    (∀ rn ctx branches, renderIfH rn ctx branches =
      match selectBranch branches ctx with
      | some body => rn body ctx
      | none => .ok ("")) ∧
    renderTemplate 20
      [("t.html", "\x7b% if x > 10 %\x7dA\x7b% elif x > 3 %\x7dB\x7b% else %\x7dC\x7b% endif %\x7d")]
      ("t.html") [("x", .num 5)] = .ok ("B") :=
  ⟨fun rn ctx branches => renderIfH_eq_selectBranch rn ctx branches, rfl⟩

/-- C9: reaching the end of input with a non-empty frame stack fails with an
unclosed-tag error at the position of the innermost (most recently pushed)
open frame, and the error propagates out of the Template Store's load call;
concretely, an unclosed if tag on line 2 column 1 fails both `load` and the
full render with that position. -/
theorem C9_unclosed_tag_error :
    (∀ out f stack, parseLoop [] out (f :: stack) =
      .error (.unclosedTag (framePos f).1 (framePos f).2)) ∧
    load [("bad.html", "Hello\n\x7b% if x %\x7doops")] ("bad.html") =
      .error (.unclosedTag 2 1) ∧
    renderTemplate 20 [("bad.html", "Hello\n\x7b% if x %\x7doops")] ("bad.html") [] =
      .error (.unclosedTag 2 1) :=
  ⟨fun _ _ _ => rfl, rfl, rfl⟩

/-- C10: an include or extends argument whose two quote characters differ is
accepted rather than rejected — the argument pattern allows any mix of
single and double quotes at the two ends — and the path is the text between
them; matching pairs are of course also accepted. -/
theorem C10_mismatched_quote_paths :
    parse (lex ("\x7b% include \"partial.html\x27 %\x7d")) = .ok [.includeN ("partial.html")] ∧
    parse (lex ("\x7b% extends \x27base.html\" %\x7d")) = .ok [.extendsN ("base.html")] ∧
    parse (lex ("\x7b% include \x27a.html\x27 %\x7d")) = .ok [.includeN ("a.html")] ∧
    parse (lex ("\x7b% extends \"b.html\" %\x7d")) = .ok [.extendsN ("b.html")] :=
  ⟨rfl, rfl, rfl, rfl⟩

/-- C3 (code bug): two-level inheritance works as claimed — a child block
overrides the base's same-named block, and an omitted block falls back to
the base's default.  But on a three-level chain the override map does NOT
accumulate: `renderParentWithChild` passes the leaf's block map unchanged
through the `extends` hop, so the mid template's override of the root's
block b is lost (the root's default RB renders instead of MB), and after the
recursion the walk continues over the mid template's remaining nodes, so its
block bodies (MB) are appended again after the root's render.  The claimed
accumulation semantics would render the leaf chain to the string
`<r>LAMB</r>`; the engine instead produces `<r>LARB</r>MB` (third
conjunct). -/
theorem C3_inheritance_chain :
    renderTemplate 20
      [("base.html", "<html>\x7b% block body %\x7dDEFAULT\x7b% endblock %\x7d</html>"),
       ("child.html", "\x7b% extends \"base.html\" %\x7d\x7b% block body %\x7dCHILD\x7b% endblock %\x7d")]
      ("child.html") [] = .ok ("<html>CHILD</html>") ∧
    renderTemplate 20
      [("base.html", "<html>\x7b% block body %\x7dDEFAULT\x7b% endblock %\x7d</html>"),
       ("child2.html", "\x7b% extends \"base.html\" %\x7d")]
      ("child2.html") [] = .ok ("<html>DEFAULT</html>") ∧
    renderTemplate 30
      [("root.html", "<r>\x7b% block a %\x7dRA\x7b% endblock %\x7d\x7b% block b %\x7dRB\x7b% endblock %\x7d</r>"),
       ("mid.html", "\x7b% extends \"root.html\" %\x7d\x7b% block b %\x7dMB\x7b% endblock %\x7d"),
       ("leaf.html", "\x7b% extends \"mid.html\" %\x7d\x7b% block a %\x7dLA\x7b% endblock %\x7d")]
      ("leaf.html") [] = .ok ("<r>LARB</r>MB") :=
  ⟨rfl, rfl, rfl⟩

/-- C4 counterexample: the comparison split of `evalTestExpression` is a
plain regex with a lazy left group, so a comparison operator occurring
INSIDE a quoted string literal IS a split point, contrary to the claim.
The expression consisting solely of the single-quoted literal a-less-than-b
contains no top-level operator, so the claim predicts the truthiness of the
(nonempty, hence truthy) string — true; the engine instead splits at the
quoted less-than sign, compares the undefined values of the malformed
halves, and returns false. -/
theorem C4_quoted_operator_counterexample :
    splitCmp ("\x27a<b\x27") = some ("\x27a", "<", "b\x27") ∧
    evalTestExpression ("\x27a<b\x27") [] = false ∧
    truthy (getValue ("\x27a<b\x27") []) = true :=
  ⟨rfl, rfl, rfl⟩

/-- C4 as amended: when the (quote-unaware, leftmost-occurrence) comparison
split fires, both operand substrings are evaluated as expressions and
compared by `safeCompare`: numerically when both values are numbers, and
otherwise lexicographically on the string forms with null/undefined
coercing to the empty string.  An expression the split does not fire on
evaluates to the truthiness of its value. -/
theorem C4_comparison_semantics :
    (∀ a b : Int,
      safeCompare (.num a) (.num b) ("==") = (a == b) ∧
      safeCompare (.num a) (.num b) ("!=") = !(a == b) ∧
      safeCompare (.num a) (.num b) (">") = decide (a > b) ∧
      safeCompare (.num a) (.num b) ("<") = decide (a < b) ∧
      safeCompare (.num a) (.num b) (">=") = decide (a ≥ b) ∧
      safeCompare (.num a) (.num b) ("<=") = decide (a ≤ b)) ∧
    (∀ l r, (numKind l && numKind r) = false →
      safeCompare l r ("<") = decide (cmpCoerce l < cmpCoerce r) ∧
      safeCompare l r (">") = decide (cmpCoerce r < cmpCoerce l) ∧
      safeCompare l r (">=") = !decide (cmpCoerce l < cmpCoerce r) ∧
      safeCompare l r ("<=") = !decide (cmpCoerce r < cmpCoerce l) ∧
      safeCompare l r ("==") = (cmpCoerce l == cmpCoerce r) ∧
      safeCompare l r ("!=") = !(cmpCoerce l == cmpCoerce r)) ∧
    (∀ e ctx l op r, splitCmp (jsTrim e) = some (l, op, r) →
      evalTestExpression e ctx = safeCompare (getValue l ctx) (getValue r ctx) op) ∧
    (∀ e ctx, splitCmp (jsTrim e) = none →
      evalTestExpression e ctx = truthy (getValue (jsTrim e) ctx)) ∧
    cmpCoerce .vnull = "" := by
  refine ⟨fun a b => ⟨rfl, rfl, rfl, rfl, rfl, rfl⟩, ?_, ?_, ?_, rfl⟩
  · intro l r h
    have hs : ∀ L R : String,
        strCmp L R ("<") = decide (L < R) ∧
        strCmp L R (">") = decide (R < L) ∧
        strCmp L R (">=") = !decide (L < R) ∧
        strCmp L R ("<=") = !decide (R < L) ∧
        strCmp L R ("==") = (L == R) ∧
        strCmp L R ("!=") = !(L == R) := fun L R =>
      ⟨jsStrLt_eq_decide L R, jsStrLt_eq_decide R L,
        congrArg (fun b => !b) (jsStrLt_eq_decide L R),
        congrArg (fun b => !b) (jsStrLt_eq_decide R L), rfl, rfl⟩
    cases l <;> cases r <;>
      first
      | exact hs _ _
      | simp [numKind] at h
  · intro e ctx l op r h
    by_cases he : jsTrim e = ""
    · rw [he] at h
      simp [splitCmp, splitCmpAux] at h
    · have hne : (jsTrim e == "") = false := by
        simp [he]
      simp only [evalTestExpression, hne, Bool.false_eq_true, if_false, h]
  · intro e ctx h
    by_cases he : jsTrim e = ""
    · have hne : (jsTrim e == "") = true := by simp [he]
      simp only [evalTestExpression, hne, if_true]
      rw [he]
      rfl
    · have hne : (jsTrim e == "") = false := by simp [he]
      simp only [evalTestExpression, hne, Bool.false_eq_true, if_false, h]

/-- Witness for the hypothesis-bearing conjuncts of
`C4_comparison_semantics`, at concrete inputs. -/
theorem C4_comparison_semantics_witness :
    ((numKind (.str ("b")) && numKind (.num 1)) = false ∧
      safeCompare (.str ("b")) (.num 1) ("<") =
        decide (cmpCoerce (.str ("b")) < cmpCoerce (.num 1))) ∧
    (splitCmp (jsTrim ("x > 10")) = some ("x", ">", "10") ∧
      evalTestExpression ("x > 10") [("x", .num 5)] =
        safeCompare (getValue ("x") [("x", .num 5)]) (getValue ("10") [("x", .num 5)]) (">")) ∧
    (splitCmp (jsTrim ("flag")) = none ∧
      evalTestExpression ("flag") [("flag", .bool true)] =
        truthy (getValue (jsTrim ("flag")) [("flag", .bool true)])) :=
  ⟨⟨rfl, (C4_comparison_semantics.2.1 (.str ("b")) (.num 1) rfl).1⟩,
   ⟨rfl, C4_comparison_semantics.2.2.1 ("x > 10") [("x", .num 5)] ("x") (">") ("10") rfl⟩,
   ⟨rfl, C4_comparison_semantics.2.2.2.1 ("flag") [("flag", .bool true)] rfl⟩⟩

/-- C5: path-chain evaluation is total (every embedded function is) and
never raises: a chain short-circuits to undefined the moment the current
value is null/undefined; a property or index step on a non-object value is
undefined; invoking a non-callable, or a callable that throws (the caught
`try`), degrades to undefined — whatever evaluator serves the recursively
evaluated index sub-expressions.  The closing conjuncts exercise a caught
throwing invocation, a recursively evaluated index, and property access on
a number. -/
theorem C5_chain_short_circuit :
    (∀ ev ctx s rest, walkChainH ev ctx .vnull (s :: rest) = .vnull) ∧
    (∀ ev ctx v n rest, isObjLike v = false → isVNull v = false →
      walkChainH ev ctx v (.prop n :: rest) = .vnull) ∧
    (∀ ev ctx v e rest, isObjLike v = false → isVNull v = false →
      walkChainH ev ctx v (.index e :: rest) = .vnull) ∧
    (∀ ev ctx v rest, isCallableV v = false → isVNull v = false →
      walkChainH ev ctx v (.call :: rest) = .vnull) ∧
    (∀ ev ctx rest, walkChainH ev ctx (.callable none) (.call :: rest) = .vnull) ∧
    getValue ("f().x") [("f", .callable none)] = .vnull ∧
    getValue ("items[i]") [("items", .seq [.num 4, .num 5, .num 6]), ("i", .num 1)] = .num 5 ∧
    getValue ("n.x") [("n", .num 5)] = .vnull := by
  have hnull : ∀ (ev : String → Ctx → Value) (ctx : Ctx) (rest : List Step),
      walkChainH ev ctx .vnull rest = .vnull := by
    intro ev ctx rest
    cases rest with
    | nil => rfl
    | cons s r => exact walkChainH_null_cons ev ctx s r
  refine ⟨fun ev ctx s rest => walkChainH_null_cons ev ctx s rest, ?_, ?_, ?_, ?_, rfl, rfl, rfl⟩
  · intro ev ctx v n rest h1 h2
    rw [walkChainH]
    simp [h1, h2]
  · intro ev ctx v e rest h1 h2
    rw [walkChainH]
    cases idxKey (ev e ctx) <;> simp [h1, h2]
  · intro ev ctx v rest h1 h2
    cases v
    case callable res => simp [isCallableV] at h1
    case vnull => simp [isVNull] at h2
    all_goals exact hnull ev ctx rest
  · intro ev ctx rest
    rw [walkChainH]
    rw [if_neg (by simp [isVNull])]
    exact hnull ev ctx rest

/-- Witness for the hypothesis-bearing conjuncts of
`C5_chain_short_circuit`, at concrete inputs. -/
theorem C5_chain_short_circuit_witness :
    walkChainH (fun e c => getValueFromExpr 1 e c) [] (.num 5) [.prop ("x")] = .vnull ∧
    walkChainH (fun e c => getValueFromExpr 1 e c) [] (.str ("a")) [.index ("0")] = .vnull ∧
    walkChainH (fun e c => getValueFromExpr 1 e c) [] (.num 5) [.call] = .vnull :=
  ⟨C5_chain_short_circuit.2.1 (fun e c => getValueFromExpr 1 e c) [] (.num 5) ("x") [] rfl rfl,
   C5_chain_short_circuit.2.2.1 (fun e c => getValueFromExpr 1 e c) [] (.str ("a")) ("0") [] rfl rfl,
   C5_chain_short_circuit.2.2.2.1 (fun e c => getValueFromExpr 1 e c) [] (.num 5) [] rfl rfl⟩

/-- C6: a loop evaluates its iterable expression; an array iterates its
elements in order and a plain object its entries in insertion order, each
iteration rendering the body against a derived context carrying the bound
name(s), results concatenated in iteration order; any value that is neither
an array nor a runtime object (falsy values, truthy strings, numbers,
booleans, callables) yields zero iterations and never an error.
Concretely, items = the array 1,2,3 renders 123 and pairs = the object a
maps-to 1, b maps-to 2 with a two-name loop renders a=1;b=2;. -/
theorem C6_loop_semantics :
    (∀ rn fs ctx names e body, isIterableV (getValue e ctx) = false →
      renderNodeH rn fs ctx (.forN names e body) = .ok ("")) ∧
    (∀ rn fs ctx names e body l, getValue e ctx = .seq l →
      renderNodeH rn fs ctx (.forN names e body) = renderLoopSeqH rn names body ctx l) ∧
    (∀ rn fs ctx names e body es, getValue e ctx = .obj es →
      renderNodeH rn fs ctx (.forN names e body) = renderLoopObjH rn names body ctx es) ∧
    (∀ rn names body ctx items, renderLoopSeqH rn names body ctx items =
      concatExcept (items.map (fun it => rn body (bindLoopSeq ctx names it)))) ∧
    (∀ rn names body ctx entries, renderLoopObjH rn names body ctx entries =
      concatExcept (entries.map (fun kv => rn body (bindLoopObj ctx names kv.1 kv.2)))) ∧
    renderTemplate 20 [("t.html", "\x7b% for i in items %\x7d\x7b\x7b i \x7d\x7d\x7b% endfor %\x7d")]
      ("t.html") [("items", .seq [.num 1, .num 2, .num 3])] = .ok ("123") ∧
    renderTemplate 20
      [("t.html", "\x7b% for k, v in pairs %\x7d\x7b\x7b k \x7d\x7d=\x7b\x7b v \x7d\x7d;\x7b% endfor %\x7d")]
      ("t.html") [("pairs", .obj [("a", .num 1), ("b", .num 2)])] = .ok ("a=1;b=2;") := by
  refine ⟨?_, ?_, ?_,
    fun rn names body ctx items => renderLoopSeqH_eq_concat rn names body ctx items,
    fun rn names body ctx entries => renderLoopObjH_eq_concat rn names body ctx entries,
    rfl, rfl⟩
  · intro rn fs ctx names e body h
    cases hv : getValue e ctx <;>
      simp_all [renderNodeH, loopSource, isIterableV, renderLoopSeqH]
  · intro rn fs ctx names e body l h
    simp [renderNodeH, h, loopSource]
  · intro rn fs ctx names e body es h
    simp [renderNodeH, h, loopSource]

/-- Witness for the hypothesis-bearing conjuncts of `C6_loop_semantics`, at
concrete inputs. -/
theorem C6_loop_semantics_witness :
    renderNodeH (fun _ _ => .ok ("")) [] [] (.forN [("i")] ("missing") []) = .ok ("") ∧
    renderNodeH (fun _ _ => .ok ("x")) [] [("a", .seq [.num 1])] (.forN [("i")] ("a") []) =
      renderLoopSeqH (fun _ _ => .ok ("x")) [("i")] [] [("a", .seq [.num 1])] [.num 1] ∧
    renderNodeH (fun _ _ => .ok ("y")) [] [("m", .obj [("k", .num 2)])] (.forN [("i")] ("m") []) =
      renderLoopObjH (fun _ _ => .ok ("y")) [("i")] [] [("m", .obj [("k", .num 2)])] [("k", .num 2)] :=
  ⟨C6_loop_semantics.1 (fun _ _ => .ok ("")) [] [] [("i")] ("missing") [] rfl,
   C6_loop_semantics.2.1 (fun _ _ => .ok ("x")) [] [("a", .seq [.num 1])] [("i")] ("a") [] [.num 1] rfl,
   C6_loop_semantics.2.2.1 (fun _ _ => .ok ("y")) [] [("m", .obj [("k", .num 2)])] [("i")] ("m") [] [("k", .num 2)] rfl⟩

/-- C7: the filter pipeline splits the variable expression on unquoted
pipe characters only; filters apply left to right, the output of one
feeding the next; a segment naming an unknown filter leaves the value
unchanged; and a segment's argument after the colon is itself evaluated as
an expression against the same context, so filter arguments may reference
context variables.  The concrete conjuncts show a pipe inside a quoted
literal not splitting, the upper filter applied to the literal, a filter
argument resolved from the context, and an unknown filter passing the value
through. -/
theorem C7_filter_pipeline :
    (∀ v f ctx, filtersLookup (segName f) = none → applyOne v f ctx = v) ∧
    (∀ v f rest ctx, applyFilters v (f :: rest) ctx =
      applyFilters (applyOne v f ctx) rest ctx) ∧
    (∀ expr ctx, evalVarExpression expr ctx =
      match splitUnquoted expr '|' with
      | [] => .vnull
      | m :: fsegs => applyFilters (getValue m ctx) fsegs ctx) ∧
    splitUnquoted ("\"a|b\" | upper") '|' = ["\"a|b\"", "upper"] ∧
    renderTemplate 20 [("t.html", "\x7b\x7b \"a|b\" | upper \x7d\x7d")] ("t.html") [] =
      .ok ("A|B") ∧
    evalVarExpression ("d | json_script:idvar") [("idvar", .str ("me")), ("d", .num 1)] =
      .safeStr ("<script id=\"me\" type=\"application/json\">1</script>") ∧
    evalVarExpression ("x | nosuchfilter") [("x", .str ("hi"))] = .str ("hi") := by
  refine ⟨?_, fun v f rest ctx => rfl, fun expr ctx => rfl, rfl, rfl, rfl, rfl⟩
  intro v f ctx h
  by_cases hf : f == ""
  · simp [applyOne, hf]
  · simp [applyOne, hf, h]

/-- Witness for the hypothesis-bearing conjunct of `C7_filter_pipeline`, at
a concrete unknown filter name. -/
theorem C7_filter_pipeline_witness :
    applyOne (.str ("hi")) ("nosuchfilter") [] = .str ("hi") :=
  C7_filter_pipeline.1 (.str ("hi")) ("nosuchfilter") [] rfl

/-- C8 counterexample: the parser accepts a second else inside the same
conditional (it only checks that an if-frame is open), so a parsed tree can
hold a Conditional with two null-test branches, the first of which is not
last — refuting the claimed invariant. -/
theorem C8_else_order_counterexample :
    parse (lex ("\x7b% if x %\x7dA\x7b% else %\x7dB\x7b% else %\x7dC\x7b% endif %\x7d")) =
      .ok [.cond [(some ("x"), [.text ("A")]), (none, [.text ("B")]), (none, [.text ("C")])]] ∧
    nodesElseOk [.cond [(some ("x"), [.text ("A")]), (none, [.text ("B")]), (none, [.text ("C")])]] =
      false :=
  ⟨rfl, rfl⟩

/-- C8 as amended: parsing enforces only that each elif or else arrives
with an open conditional frame (an orphan fails with an unexpected-tag
error at its position); it does not reject an elif or a second else after
an else, so a Conditional may carry several null-test branches and a
null-test branch need not be last.  At render time the first null or true
test still wins, so the later branches are dead. -/
theorem C8_else_order_amended :
    parse (lex ("\x7b% if x %\x7dA\x7b% else %\x7dB\x7b% else %\x7dC\x7b% endif %\x7d")) =
      .ok [.cond [(some ("x"), [.text ("A")]), (none, [.text ("B")]), (none, [.text ("C")])]] ∧
    parse (lex ("\x7b% if x %\x7dA\x7b% else %\x7dB\x7b% elif y %\x7dC\x7b% endif %\x7d")) =
      .ok [.cond [(some ("x"), [.text ("A")]), (none, [.text ("B")]), (some ("y"), [.text ("C")])]] ∧
    parse (lex ("\x7b% else %\x7d")) = .error (.unexpectedTag ("else") 1 1) ∧
    parse (lex ("\x7b% elif y %\x7d")) = .error (.unexpectedTag ("elif") 1 1) ∧
    renderTemplate 20 [("t.html", "\x7b% if x %\x7dA\x7b% else %\x7dB\x7b% else %\x7dC\x7b% endif %\x7d")]
      ("t.html") [] = .ok ("B") :=
  ⟨rfl, rfl, rfl, rfl, rfl⟩
